import Mathlib

/-!
# Verification of `clean_ufw.py`

A shallow embedding of the UFW cleanup utility `src/clean_ufw.py`.
Text is modelled as `List Char`; the Python regular expressions
`RULE_RE` and `SSH_PORT_PATTERN` are embedded as deterministic
matching functions (the backtracking of the original patterns is
resolved below: every quantifier's behaviour is forced, so the match
and its captures are functions of the input line); the external
`ufw` invocations become explicit parameters (the snapshot text, a
failure oracle for deletions, an interactive answer), and each run
is modelled as the list of observable events it produces.
-/

namespace CleanUfw

/-- Python's `\s` character class, restricted to its ASCII members
(space, tab, newline, carriage return, vertical tab, form feed);
also the characters removed by `str.strip()`. -/
def wsChar (c : Char) : Bool :=
  c == ' ' || c == '\t' || c == '\n' || c == '\r' || c == '\x0b' || c == '\x0c'

/-- Python's `\d`, restricted to ASCII digits. -/
def digitChar (c : Char) : Bool := '0' ≤ c && c ≤ '9'

/-- Python's `\w` (word character), restricted to ASCII. -/
def wordChar (c : Char) : Bool := c.isAlphanum || c == '_'

/-- Python `str.strip()`: remove leading and trailing whitespace. -/
def pyStrip (l : List Char) : List Char :=
  ((l.dropWhile wsChar).reverse.dropWhile wsChar).reverse

/-- Python `str.lower()` (ASCII letters). -/
def pyLower (l : List Char) : List Char := l.map Char.toLower

/-- Python `str.splitlines()` for `'\n'`-separated text, up to the
empty trailing piece after a final newline (such a piece is blank,
matches no rule pattern, and is skipped by the parser anyway). -/
def splitNl : List Char → List (List Char)
  | [] => [[]]
  | c :: rest =>
    if c == '\n' then [] :: splitNl rest
    else
      match splitNl rest with
      | [] => [[c]]
      | l :: ls => (c :: l) :: ls

/-- The value of a digit string, as `int()` reads the `idx` group. -/
def natOfDigits (l : List Char) : Nat :=
  l.foldl (fun n c => 10 * n + (c.toNat - '0'.toNat)) 0

/-- The literal `"ALLOW IN"` appearing in `RULE_RE`. -/
def allowIn : List Char := "ALLOW IN".toList

/-- Whether the regex tail `\s+ALLOW IN\s+(?P<from>.+)$` matches at
this point of the line: at least one whitespace character, then the
literal `ALLOW IN`, then at least one whitespace character and at
least one further character.  (Since whitespace can never begin the
literal, the greedy `\s+` runs are forced to be maximal runs.) -/
def sepOK (tail : List Char) : Bool :=
  match tail with
  | [] => false
  | c :: _ =>
    wsChar c &&
      (allowIn.isPrefixOf (tail.dropWhile wsChar)) &&
      (match (tail.dropWhile wsChar).drop 8 with
       | [] => false
       | c2 :: rest2 => wsChar c2 && !rest2.isEmpty)

/-- The `from` capture of the regex tail accepted by `sepOK`: the
second greedy `\s+` takes the maximal whitespace run after
`ALLOW IN`, backing off one character only when nothing would be
left for `.+`. -/
def fromOf (tail : List Char) : List Char :=
  let v := (tail.dropWhile wsChar).drop 8
  let r := v.dropWhile wsChar
  if r.isEmpty then v.drop (v.length - 1) else r

/-- The lazy group `(?P<to>.+?)`: scan for the least split of the
body into a nonempty `to` followed by a tail accepted by `sepOK`.
`acc` holds the reversed characters committed to `to` so far. -/
def findSep : List Char → List Char → Option (List Char × List Char)
  | _acc, [] => none
  | acc, c :: rest =>
    if sepOK (c :: rest) then some (acc.reverse, c :: rest)
    else findSep (c :: acc) rest

/-- Match `(?P<to>.+?)\s+ALLOW IN\s+(?P<from>.+)$` against the part
of the line following `\[\s*(?P<idx>\d+)\]\s+`. -/
def matchBody (body : List Char) : Option (List Char × List Char) :=
  match body with
  | [] => none
  | c :: rest => (findSep [c] rest).map (fun p => (p.1, fromOf p.2))

/-- The embedding of
`RULE_RE = ^\[\s*(?P<idx>\d+)\]\s+(?P<to>.+?)\s+ALLOW IN\s+(?P<from>.+)$`
(`re.match`, so anchored at the start; the caller strips a line of
`splitlines()`, so the input holds no newline, `$` is the end of the
input and `.` may be modelled as any character):  `some (idx, to,
from)` with the three captures, or `none` when the line does not
match. -/
def ruleMatch (cs : List Char) : Option (Nat × List Char × List Char) :=
  match cs with
  | [] => none
  | c0 :: rest =>
    if c0 = '[' then
      let r1 := rest.dropWhile wsChar
      let ds := r1.takeWhile digitChar
      if ds.isEmpty then none
      else
        match r1.dropWhile digitChar with
        | [] => none
        | c1 :: r3 =>
          if c1 = ']' then
            match r3 with
            | [] => none
            | c2 :: _ =>
              if wsChar c2 then
                (matchBody (r3.dropWhile wsChar)).map
                  (fun p => (natOfDigits ds, p.1, p.2))
              else none
          else none
    else none

/-- `ANYWHERE_PATTERNS = ("Anywhere", "Anywhere (v6)")`: membership
of the `from` field in the tuple. -/
def anywhereFrom (f : List Char) : Bool :=
  f == "Anywhere".toList || f == "Anywhere (v6)".toList

/-- One candidate match position of
`SSH_PORT_PATTERN = \b22(/tcp)?\b` inside a string: a word boundary,
the literal `22`, and either the optional `/tcp` followed by a word
boundary, or a word boundary right after `22`. -/
def sshMatchAt (cs : List Char) (i : Nat) : Bool :=
  (i == 0 || !wordChar (cs.getD (i - 1) ' ')) &&
    ("22".toList.isPrefixOf (cs.drop i)) &&
    (("/tcp".toList.isPrefixOf (cs.drop (i + 2)) &&
        (cs.length ≤ i + 6 || !wordChar (cs.getD (i + 6) ' '))) ||
      (cs.length ≤ i + 2 || !wordChar (cs.getD (i + 2) ' ')))

/-- `SSH_PORT_PATTERN.search(...)`: whether `\b22(/tcp)?\b` matches
anywhere in the string. -/
def sshSearch (cs : List Char) : Bool :=
  (List.range cs.length).any (sshMatchAt cs)

/-- The body of the classification loop of `parse_ufw_status` for a
single line: strip the line, match `RULE_RE` (non-matching lines are
skipped), strip the `to` and `from` captures, and return the rule
number when the `from` field is one of the `ANYWHERE_PATTERNS` and
the `to` field does not contain the SSH port pattern. -/
def classifyLine (line : List Char) : Option Nat :=
  match ruleMatch (pyStrip line) with
  | none => none
  | some (idx, toRaw, fromRaw) =>
    let to_field := pyStrip toRaw
    let from_field := pyStrip fromRaw
    if anywhereFrom from_field && !sshSearch to_field then some idx else none

/-- `parse_ufw_status` applied to a successful `ufw status numbered`
output: the rule numbers to delete, in the order the lines appear. -/
def parse_ufw_status (output : List Char) : List Nat :=
  (splitNl output).filterMap classifyLine

/-! ## Runs, events and the external world

The `ufw` invocations are the only effects.  A listing query either
returns text, or the child exits non-zero (`CalledProcessError`,
caught and turned into `sys.exit`), or the binary is missing
(`FileNotFoundError`, uncaught, so the interpreter aborts with a
traceback and a non-zero exit status).  A deletion call either
succeeds or raises `CalledProcessError`, decided by a failure oracle.
A run is modelled as the list of events it emits in order. -/

/-- The outcome of `subprocess.check_output(["ufw", "status", "numbered"])`. -/
inductive UfwQuery where
  | ok (output : List Char)
  | calledProcessError (code : Nat)
  | fileNotFound
deriving DecidableEq

/-- How a run of `parse_ufw_status` can abort the whole process. -/
inductive Fatal where
  /-- `sys.exit("[!] Failed to execute 'ufw': ...")` on a non-zero
  listing query. -/
  | execFailed (code : Nat)
  /-- the uncaught `FileNotFoundError` traceback when the `ufw`
  binary is missing. -/
  | uncaughtFileNotFound
deriving DecidableEq

/-- The process exit status a fatal abort produces: `sys.exit(str)`
and an uncaught exception both end the interpreter with status 1. -/
def Fatal.exitCode : Fatal → Nat
  | _ => 1

/-- The diagnostic each fatal abort prints. -/
def Fatal.message : Fatal → List Char
  | .execFailed _ => "[!] Failed to execute 'ufw': CalledProcessError".toList
  | .uncaughtFileNotFound =>
      "FileNotFoundError: [Errno 2] No such file or directory: 'ufw'".toList

/-- `parse_ufw_status` including its error handling: the rule
numbers on a successful listing, or the fatal abort. -/
def parse_ufw_statusE : UfwQuery → Except Fatal (List Nat)
  | .ok output => .ok (parse_ufw_status output)
  | .calledProcessError c => .error (.execFailed c)
  | .fileNotFound => .error .uncaughtFileNotFound

/-- The observable events of a run (prints and `ufw` delete calls). -/
inductive Event where
  | nothingToDo                       -- "[i] No matching rules found. ..."
  | planReport (rules : List Nat)     -- "[i] The following rule numbers ..."
  | dryRunNotice                      -- "[i] Dry-run mode active. ..."
  | promptConfirm                     -- input("Proceed with deletion? [y/N]: ")
  | abortedByUser                     -- "[i] Aborted by user. ..."
  | deleting (idx : Nat)              -- "[+] Deleting rule #idx"
  | deleteCall (idx : Nat)            -- check_call(["ufw", "--force", "delete", idx])
  | deleteFailed (idx : Nat)          -- "[!] Failed to delete rule idx: ..."
  | cleanupCompleted                  -- "[✓] Cleanup completed."
  | watchBanner (interval : Nat)      -- "[i] Entering watch mode ..."
  | watchExit                         -- "[✓] No matching 'Anywhere' rules remain. ..."
  | watchFound (rules : List Nat)     -- "[i] ts: found n rule(s) -> ..."
  | watchDryNotice                    -- "[i] Dry-run mode active – would delete ..."
  | skipCycle                         -- "[i] Skipping deletion this cycle."
  | sleepFor (secs : Nat)             -- time.sleep(interval)
deriving DecidableEq

/-- The indices of the `ufw --force delete` calls in a trace. -/
def deleteCalls (evs : List Event) : List Nat :=
  evs.filterMap (fun e => match e with | .deleteCall i => some i | _ => none)

/-- The indices announced by "[+] Deleting rule #..." in a trace. -/
def deleteAttempts (evs : List Event) : List Nat :=
  evs.filterMap (fun e => match e with | .deleting i => some i | _ => none)

/-- Stable descending insertion, the effect of
`sorted(rule_numbers, reverse=True)` on a list of numbers. -/
def insertDesc (a : Nat) : List Nat → List Nat
  | [] => [a]
  | b :: l => if b < a then a :: b :: l else b :: insertDesc a l

/-- `sorted(l, reverse=True)`. -/
def sortDesc (l : List Nat) : List Nat := l.foldr insertDesc []

/-- Stable ascending insertion, the effect of `sorted(l)`. -/
def insertAsc (a : Nat) : List Nat → List Nat
  | [] => [a]
  | b :: l => if a < b then a :: b :: l else b :: insertAsc a l

/-- `sorted(l)`. -/
def sortAsc (l : List Nat) : List Nat := l.foldr insertAsc []

/-- `delete_rules`: walk the rule numbers in descending order and,
for each, announce it, call `ufw --force delete`, and report a
failure (`fails idx = true` means the call raised
`CalledProcessError`) before continuing with the next index. -/
def delete_rules (fails : Nat → Bool) (rule_numbers : List Nat) : List Event :=
  (sortDesc rule_numbers).flatMap (fun idx =>
    [.deleting idx, .deleteCall idx] ++
      (if fails idx then [.deleteFailed idx] else []))

/-- The normalisation `input(...).lower().strip()` applied to the
interactive answer. -/
def normResp (ans : List Char) : List Char := pyStrip (pyLower ans)

/-- The part of `single_cleanup` after the listing query: report,
honour dry-run, optionally prompt, and delete. -/
def cleanup_pass (dry_run assume_yes : Bool) (rules : List Nat)
    (confirm : List Char) (fails : Nat → Bool) : List Event :=
  if rules.isEmpty then [.nothingToDo]
  else
    .planReport (sortAsc rules) ::
      (if dry_run then [.dryRunNotice]
       else if !assume_yes then
         .promptConfirm ::
           (if normResp confirm = "y".toList then
              delete_rules fails rules ++ [.cleanupCompleted]
            else [.abortedByUser])
       else delete_rules fails rules ++ [.cleanupCompleted])

/-- `single_cleanup`: one pass.  The events of the pass, and the
fatal abort when the listing query fails (in which case nothing else
happens). -/
def single_cleanup (dry_run assume_yes : Bool) (q : UfwQuery)
    (confirm : List Char) (fails : Nat → Bool) : List Event × Option Fatal :=
  match parse_ufw_statusE q with
  | .error e => ([], some e)
  | .ok rules => (cleanup_pass dry_run assume_yes rules confirm fails, none)

/-- The result of (a bounded prefix of) the watch loop. -/
structure RunResult where
  events : List Event
  /-- the loop broke out via the zero-violations exit -/
  halted : Bool
  /-- the fatal abort of a failed listing query, when one occurred -/
  fatal : Option Fatal
deriving DecidableEq

/-- One iteration of the `while True` body of `watch_loop` at
iteration `k`: query, exit when no rules remain, otherwise report
and (depending on dry-run/confirmation) delete, then sleep. -/
def watch_iter (dry_run assume_yes : Bool) (qs : Nat → UfwQuery)
    (confirms : Nat → List Char) (fails : Nat → Nat → Bool)
    (interval : Nat) (k : Nat) : RunResult :=
  match parse_ufw_statusE (qs k) with
  | .error e => ⟨[], false, some e⟩
  | .ok rules =>
    if rules.isEmpty then ⟨[.watchExit], true, none⟩
    else
      ⟨.watchFound rules ::
        (if dry_run then [.watchDryNotice]
         else if !assume_yes then
           .promptConfirm ::
             (if normResp (confirms k) = "y".toList then
                delete_rules (fails k) rules
              else [.skipCycle])
         else delete_rules (fails k) rules) ++
        (if 0 < interval then [.sleepFor interval] else []),
       false, none⟩

/-- Up to `fuel` iterations of the `while True` loop of
`watch_loop`, starting at iteration `k`: stops early at the
zero-violations exit or at a fatal abort, and runs out of fuel
otherwise (`halted = false`, `fatal = none`: the loop would
continue). -/
def watch_run (dry_run assume_yes : Bool) (qs : Nat → UfwQuery)
    (confirms : Nat → List Char) (fails : Nat → Nat → Bool)
    (interval : Nat) : Nat → Nat → RunResult
  | 0, _ => ⟨[], false, none⟩
  | fuel + 1, k =>
    let r := watch_iter dry_run assume_yes qs confirms fails interval k
    if r.halted || r.fatal.isSome then r
    else
      let rest := watch_run dry_run assume_yes qs confirms fails interval fuel (k + 1)
      ⟨r.events ++ rest.events, rest.halted, rest.fatal⟩

/-- `watch_loop`: the banner, then the loop. -/
def watch_loop (interval : Nat) (dry_run assume_yes : Bool)
    (qs : Nat → UfwQuery) (confirms : Nat → List Char)
    (fails : Nat → Nat → Bool) (fuel : Nat) : RunResult :=
  let r := watch_run dry_run assume_yes qs confirms fails interval fuel 0
  ⟨.watchBanner interval :: r.events, r.halted, r.fatal⟩

/-- A query stream in which every listing succeeds with the given
snapshot text. -/
def okStream (snaps : Nat → List Char) : Nat → UfwQuery :=
  fun k => .ok (snaps k)

/-! ## Supporting lemmas -/

theorem insertDesc_perm (a : Nat) (l : List Nat) :
    List.Perm (insertDesc a l) (a :: l) := by
  induction l with
  | nil => simp [insertDesc]
  | cons b t ih =>
    by_cases h : b < a
    · simp [insertDesc, h]
    · simp only [insertDesc, if_neg h]
      exact (ih.cons b).trans (List.Perm.swap a b t)

theorem sortDesc_perm (l : List Nat) : List.Perm (sortDesc l) l := by
  induction l with
  | nil => simp [sortDesc]
  | cons a t ih =>
    exact (insertDesc_perm a (sortDesc t)).trans (ih.cons a)

theorem mem_insertDesc {b : Nat} {a : Nat} {l : List Nat} :
    b ∈ insertDesc a l ↔ b = a ∨ b ∈ l := by
  rw [(insertDesc_perm a l).mem_iff]; simp

theorem pairwise_ge_insertDesc (a : Nat) (l : List Nat)
    (h : l.Pairwise (· ≥ ·)) : (insertDesc a l).Pairwise (· ≥ ·) := by
  induction l with
  | nil => simp [insertDesc]
  | cons b t ih =>
    rw [List.pairwise_cons] at h
    by_cases hba : b < a
    · simp only [insertDesc, if_pos hba, List.pairwise_cons]
      refine ⟨?_, h⟩
      intro x hx
      rcases List.mem_cons.mp hx with rfl | hx
      · exact Nat.le_of_lt hba
      · exact Nat.le_trans (h.1 x hx) (Nat.le_of_lt hba)
    · simp only [insertDesc, if_neg hba, List.pairwise_cons]
      refine ⟨?_, ih h.2⟩
      intro x hx
      rcases mem_insertDesc.mp hx with rfl | hx
      · exact Nat.le_of_not_lt hba
      · exact h.1 x hx

theorem pairwise_ge_sortDesc (l : List Nat) :
    (sortDesc l).Pairwise (· ≥ ·) := by
  induction l with
  | nil => simp [sortDesc]
  | cons a t ih => exact pairwise_ge_insertDesc a (sortDesc t) ih

theorem pairwise_gt_sortDesc {l : List Nat} (h : l.Nodup) :
    (sortDesc l).Pairwise (· > ·) := by
  have hnd : (sortDesc l).Nodup := (sortDesc_perm l).nodup_iff.mpr h
  have := (pairwise_ge_sortDesc l).and hnd
  exact this.imp (fun hc => Nat.lt_of_le_of_ne hc.1.le (Ne.symm hc.2))

theorem deleteCalls_append (l₁ l₂ : List Event) :
    deleteCalls (l₁ ++ l₂) = deleteCalls l₁ ++ deleteCalls l₂ := by
  simp [deleteCalls]

theorem deleteAttempts_append (l₁ l₂ : List Event) :
    deleteAttempts (l₁ ++ l₂) = deleteAttempts l₁ ++ deleteAttempts l₂ := by
  simp [deleteAttempts]

theorem deleteCalls_delete_rules (fails : Nat → Bool) (l : List Nat) :
    deleteCalls (delete_rules fails l) = sortDesc l := by
  unfold delete_rules
  induction sortDesc l with
  | nil => simp [deleteCalls]
  | cons a t ih =>
    rw [List.flatMap_cons, deleteCalls_append, ih]
    by_cases h : fails a <;> simp [deleteCalls, h]

theorem deleteAttempts_delete_rules (fails : Nat → Bool) (l : List Nat) :
    deleteAttempts (delete_rules fails l) = sortDesc l := by
  unfold delete_rules
  induction sortDesc l with
  | nil => simp [deleteAttempts]
  | cons a t ih =>
    rw [List.flatMap_cons, deleteAttempts_append, ih]
    by_cases h : fails a <;> simp [deleteAttempts, h]

theorem deleteFailed_mem_delete_rules (fails : Nat → Bool) (l : List Nat)
    (idx : Nat) (hm : idx ∈ l) (hf : fails idx = true) :
    Event.deleteFailed idx ∈ delete_rules fails l := by
  have hm2 : idx ∈ sortDesc l := (sortDesc_perm l).mem_iff.mpr hm
  unfold delete_rules
  rw [List.mem_flatMap]
  exact ⟨idx, hm2, by simp [hf]⟩

theorem classifyLine_eq_some (line : List Char) (idx : Nat) :
    classifyLine line = some idx ↔
      ∃ t f, ruleMatch (pyStrip line) = some (idx, t, f) ∧
        anywhereFrom (pyStrip f) = true ∧ sshSearch (pyStrip t) = false := by
  unfold classifyLine
  rcases h : ruleMatch (pyStrip line) with _ | ⟨i, t, f⟩
  · simp
  · dsimp only
    constructor
    · intro h2
      by_cases hc : (anywhereFrom (pyStrip f) && !sshSearch (pyStrip t)) = true
      · rw [if_pos hc] at h2
        injection h2 with h3
        subst h3
        rcases Bool.and_eq_true .. |>.mp hc with ⟨hc1, hc2⟩
        exact ⟨t, f, rfl, hc1, Bool.not_eq_true' .. |>.mp hc2⟩
      · rw [if_neg hc] at h2; cases h2
    · rintro ⟨t2, f2, h2, h3, h4⟩
      simp only [Option.some.injEq, Prod.mk.injEq] at h2
      obtain ⟨rfl, rfl, rfl⟩ := h2
      simp [h3, h4]

theorem findSep_eq_some {acc rest t tail : List Char}
    (h : findSep acc rest = some (t, tail)) :
    sepOK tail = true ∧ tail <:+ rest := by
  induction rest generalizing acc with
  | nil => simp [findSep] at h
  | cons c r ih =>
    rw [findSep] at h
    by_cases hs : sepOK (c :: r) = true
    · rw [if_pos hs] at h
      injection h with h2
      obtain ⟨-, h4⟩ := Prod.mk.injEq .. ▸ h2
      subst h4
      exact ⟨hs, List.suffix_refl _⟩
    · rw [if_neg hs] at h
      obtain ⟨h1, h2⟩ := ih h
      exact ⟨h1, h2.trans (List.suffix_cons c r)⟩

theorem allowIn_infix_of_sepOK {tail : List Char} (h : sepOK tail = true) :
    allowIn <:+: tail := by
  cases tail with
  | nil => simp [sepOK] at h
  | cons c rest =>
    have h2 : allowIn.isPrefixOf ((c :: rest).dropWhile wsChar) = true := by
      rcases Bool.and_eq_true .. |>.mp h with ⟨h3, -⟩
      rcases Bool.and_eq_true .. |>.mp h3 with ⟨-, h4⟩
      exact h4
    exact (List.isPrefixOf_iff_prefix.mp h2).isInfix.trans
      (List.dropWhile_suffix wsChar).isInfix

/-- A successful `RULE_RE` match forces the literal `ALLOW IN` to
occur in the line: the pattern hard-codes the action and direction,
so only `ALLOW IN` rules are ever captured. -/
theorem ruleMatch_allowIn {cs : List Char} {r : Nat × List Char × List Char}
    (h : ruleMatch cs = some r) : allowIn <:+: cs := by
  cases cs with
  | nil => simp [ruleMatch] at h
  | cons c0 rest =>
    simp only [ruleMatch] at h
    by_cases h0 : c0 = '['
    · rw [if_pos h0] at h
      by_cases h1 : ((rest.dropWhile wsChar).takeWhile digitChar).isEmpty = true
      · rw [if_pos h1] at h; cases h
      · rw [if_neg h1] at h
        rcases hd : (rest.dropWhile wsChar).dropWhile digitChar with _ | ⟨c1, r3⟩
        · rw [hd] at h; cases h
        · rw [hd] at h
          dsimp only at h
          by_cases h2 : c1 = ']'
          · rw [if_pos h2] at h
            rcases hr3 : r3 with _ | ⟨c2, r4⟩
            · rw [hr3] at h; cases h
            · rw [hr3] at h
              dsimp only at h
              by_cases h3 : wsChar c2 = true
              · rw [if_pos h3] at h
                rw [← hr3] at h
                rcases hb : matchBody (r3.dropWhile wsChar) with _ | p
                · rw [hb] at h; cases h
                · rcases hbody : r3.dropWhile wsChar with _ | ⟨cb, rb⟩
                  · rw [hbody] at hb; simp [matchBody] at hb
                  · rw [hbody] at hb
                    simp only [matchBody] at hb
                    rcases hf : findSep [cb] rb with _ | q
                    · rw [hf] at hb; simp at hb
                    · have hq : findSep [cb] rb = some (q.1, q.2) := by rw [hf]
                      obtain ⟨hsep, hsuf⟩ := findSep_eq_some hq
                      have hinf : allowIn <:+: rb := (allowIn_infix_of_sepOK hsep).trans
                        hsuf.isInfix
                      have hsuf2 : rb <:+ c0 :: rest := by
                        have s1 : rb <:+ r3.dropWhile wsChar := by
                          rw [hbody]; exact List.suffix_cons cb rb
                        have s2 : r3.dropWhile wsChar <:+ r3 := List.dropWhile_suffix _
                        have s3 : r3 <:+ (rest.dropWhile wsChar).dropWhile digitChar := by
                          rw [hd]; exact List.suffix_cons c1 r3
                        have s4 : (rest.dropWhile wsChar).dropWhile digitChar <:+
                            rest.dropWhile wsChar := List.dropWhile_suffix _
                        have s5 : rest.dropWhile wsChar <:+ rest := List.dropWhile_suffix _
                        exact ((((s1.trans s2).trans s3).trans s4).trans s5).trans
                          (List.suffix_cons c0 rest)
                      exact hinf.trans hsuf2.isInfix
              · rw [if_neg h3] at h; cases h
          · rw [if_neg h2] at h; cases h
    · rw [if_neg h0] at h; cases h

theorem deleteCalls_cleanup_pass_dry (ay : Bool) (rules : List Nat)
    (conf : List Char) (fails : Nat → Bool) :
    deleteCalls (cleanup_pass true ay rules conf fails) = [] := by
  unfold cleanup_pass
  by_cases h : rules.isEmpty = true <;> simp [h, deleteCalls]

theorem deleteCalls_watch_iter_dry (ay : Bool) (qs : Nat → UfwQuery)
    (confs : Nat → List Char) (fails : Nat → Nat → Bool) (interval k : Nat) :
    deleteCalls (watch_iter true ay qs confs fails interval k).events = [] := by
  unfold watch_iter
  rcases parse_ufw_statusE (qs k) with e | rules
  · simp [deleteCalls]
  · dsimp only
    by_cases h : rules.isEmpty = true
    · simp [h, deleteCalls]
    · by_cases hi : 0 < interval <;> simp [h, hi, deleteCalls]

theorem deleteCalls_watch_run_dry (ay : Bool) (qs : Nat → UfwQuery)
    (confs : Nat → List Char) (fails : Nat → Nat → Bool) (interval : Nat) :
    ∀ fuel k,
      deleteCalls (watch_run true ay qs confs fails interval fuel k).events = [] := by
  intro fuel
  induction fuel with
  | zero => intro k; simp [watch_run, deleteCalls]
  | succ n ih =>
    intro k
    simp only [watch_run]
    by_cases hr : ((watch_iter true ay qs confs fails interval k).halted ||
        (watch_iter true ay qs confs fails interval k).fatal.isSome) = true
    · rw [if_pos hr]
      exact deleteCalls_watch_iter_dry ay qs confs fails interval k
    · rw [if_neg hr]
      rw [deleteCalls_append, deleteCalls_watch_iter_dry, ih (k + 1)]
      rfl

theorem watch_iter_ok_halted (dry ay : Bool) (snaps : Nat → List Char)
    (confs : Nat → List Char) (fails : Nat → Nat → Bool) (interval k : Nat) :
    (watch_iter dry ay (okStream snaps) confs fails interval k).halted =
      (parse_ufw_status (snaps k)).isEmpty ∧
    (watch_iter dry ay (okStream snaps) confs fails interval k).fatal = none := by
  unfold watch_iter okStream parse_ufw_statusE
  dsimp only
  by_cases h : (parse_ufw_status (snaps k)).isEmpty = true <;> simp [h]

theorem watch_run_ok_not_halted (dry ay : Bool) (snaps : Nat → List Char)
    (confs : Nat → List Char) (fails : Nat → Nat → Bool) (interval : Nat) :
    ∀ fuel k, (∀ j, j < fuel → parse_ufw_status (snaps (k + j)) ≠ []) →
      (watch_run dry ay (okStream snaps) confs fails interval fuel k).halted = false ∧
      (watch_run dry ay (okStream snaps) confs fails interval fuel k).fatal = none := by
  intro fuel
  induction fuel with
  | zero => intro k _; exact ⟨rfl, rfl⟩
  | succ n ih =>
    intro k h
    have h0 : parse_ufw_status (snaps k) ≠ [] := by
      have := h 0 (Nat.succ_pos n)
      simpa using this
    obtain ⟨hh, hf⟩ := watch_iter_ok_halted dry ay snaps confs fails interval k
    have hh2 : (watch_iter dry ay (okStream snaps) confs fails interval k).halted = false := by
      rw [hh]; exact List.isEmpty_eq_false.mpr h0
    simp only [watch_run, hh2, hf, Option.isSome_none, Bool.or_self, Bool.false_eq_true,
      if_false]
    exact ih (k + 1) (fun j hj => by
      have := h (j + 1) (Nat.succ_lt_succ hj)
      rwa [show k + (j + 1) = k + 1 + j by omega] at this)

theorem watch_run_ok_halts (dry ay : Bool) (snaps : Nat → List Char)
    (confs : Nat → List Char) (fails : Nat → Nat → Bool) (interval : Nat) :
    ∀ n k, (∀ j, j < n → parse_ufw_status (snaps (k + j)) ≠ []) →
      parse_ufw_status (snaps (k + n)) = [] →
      (watch_run dry ay (okStream snaps) confs fails interval (n + 1) k).halted = true := by
  intro n
  induction n with
  | zero =>
    intro k _ he
    rw [Nat.add_zero] at he
    obtain ⟨hh, -⟩ := watch_iter_ok_halted dry ay snaps confs fails interval k
    have hh2 : (watch_iter dry ay (okStream snaps) confs fails interval k).halted = true := by
      rw [hh, he]; rfl
    simp only [watch_run, hh2, Bool.true_or, if_true]
  | succ n ih =>
    intro k h he
    have h0 : parse_ufw_status (snaps k) ≠ [] := by
      have := h 0 (Nat.succ_pos n)
      simpa using this
    obtain ⟨hh, hf⟩ := watch_iter_ok_halted dry ay snaps confs fails interval k
    have hh2 : (watch_iter dry ay (okStream snaps) confs fails interval k).halted = false := by
      rw [hh]; exact List.isEmpty_eq_false.mpr h0
    simp only [watch_run, hh2, hf, Option.isSome_none, Bool.or_self, Bool.false_eq_true,
      if_false]
    exact ih (k + 1)
      (fun j hj => by
        have := h (j + 1) (Nat.succ_lt_succ hj)
        rwa [show k + (j + 1) = k + 1 + j by omega] at this)
      (by rwa [show k + 1 + n = k + (n + 1) by omega])

theorem deleteCalls_nil : deleteCalls [] = [] := rfl

theorem deleteCalls_cons (e : Event) (evs : List Event) :
    deleteCalls (e :: evs) =
      (match e with | .deleteCall i => [i] | _ => []) ++ deleteCalls evs := by
  cases e <;> rfl

theorem deleteCalls_sleep_if (c : Prop) [Decidable c] (n : Nat) :
    deleteCalls (if c then [.sleepFor n] else []) = [] := by
  by_cases h : c <;> simp [h, deleteCalls]

/-! ## Concrete demonstration inputs -/

/-- A violating listing line: allows port 8080 from anywhere. -/
def demoLine : List Char := "[ 1] 8080/tcp ALLOW IN Anywhere".toList

/-- Snapshots that always show the violating rule. -/
def demoSnaps : Nat → List Char := fun _ => demoLine

/-- Snapshots whose first listing shows the violating rule and whose
later listings are clean. -/
def demoStopSnaps : Nat → List Char := fun k => if k = 0 then demoLine else []

/-- An operator who answers every prompt with an empty line. -/
def noAnswer : Nat → List Char := fun _ => []

/-- Deletion calls that never fail. -/
def noFails : Nat → Bool := fun _ => false

/-- Deletion calls that never fail, per iteration. -/
def noFails2 : Nat → Nat → Bool := fun _ _ => false

/-! ## The claims -/

/-- C1: a line contributes its rule number to the violation set iff
it parses as a rule under `RULE_RE` (whose pattern hard-codes action
`ALLOW` and direction `IN`), its stripped source field is exactly one
of the two "anywhere" literals, and its stripped destination field
does not contain port 22 (optionally with the `/tcp` suffix) as a
whole word. -/
theorem C1_violation_iff (output : List Char) (idx : Nat) :
    idx ∈ parse_ufw_status output ↔
      ∃ line ∈ splitNl output, ∃ t f,
        ruleMatch (pyStrip line) = some (idx, t, f) ∧
        anywhereFrom (pyStrip f) = true ∧ sshSearch (pyStrip t) = false := by
  unfold parse_ufw_status
  rw [List.mem_filterMap]
  constructor
  · rintro ⟨line, hm, hc⟩
    exact ⟨line, hm, (classifyLine_eq_some line idx).mp hc⟩
  · rintro ⟨line, hm, hc⟩
    exact ⟨line, hm, (classifyLine_eq_some line idx).mpr hc⟩

/-- C2: for every violation set (list of distinct indices) and every
failure behaviour of the external tool, the deletion calls are
issued in strictly descending order; in particular the set
`{3, 7, 1}` is deleted in the order `7, 3, 1`. -/
theorem C2_descending_deletion_order (fails : Nat → Bool) (l : List Nat)
    (h : l.Nodup) :
    (deleteCalls (delete_rules fails l)).Pairwise (· > ·) ∧
      deleteCalls (delete_rules fails [3, 7, 1]) = [7, 3, 1] := by
  constructor
  · rw [deleteCalls_delete_rules]
    exact pairwise_gt_sortDesc h
  · rw [deleteCalls_delete_rules]
    rfl

/-- Witness for C2 at the concrete set `{3, 7, 1}`. -/
theorem C2_descending_deletion_order_witness :
    (deleteCalls (delete_rules (fun _ => false) [3, 7, 1])).Pairwise (· > ·) ∧
      deleteCalls (delete_rules (fun _ => false) [3, 7, 1]) = [7, 3, 1] :=
  C2_descending_deletion_order (fun _ => false) [3, 7, 1] (by decide)

/-- C3: with dry-run set, no `ufw --force delete` call occurs in
either mode, for any listing outcome, confirmation setting or
answer. -/
theorem C3_dry_run_never_deletes :
    (∀ (ay : Bool) (q : UfwQuery) (conf : List Char) (fails : Nat → Bool),
       deleteCalls (single_cleanup true ay q conf fails).1 = []) ∧
    (∀ (ay : Bool) (qs : Nat → UfwQuery) (confs : Nat → List Char)
       (fails : Nat → Nat → Bool) (interval fuel : Nat),
       deleteCalls (watch_loop interval true ay qs confs fails fuel).events = []) := by
  constructor
  · intro ay q conf fails
    unfold single_cleanup
    rcases parse_ufw_statusE q with e | rules
    · rfl
    · exact deleteCalls_cleanup_pass_dry ay rules conf fails
  · intro ay qs confs fails interval fuel
    unfold watch_loop
    dsimp only
    rw [deleteCalls_cons]
    rw [deleteCalls_watch_run_dry ay qs confs fails interval fuel 0]
    rfl

/-- C4 counterexample: in watch mode with dry-run set and a snapshot
stream that keeps showing one violating rule, the loop does NOT
terminate after reporting the first snapshot's plan: two iterations
both report, and the loop has not exited. -/
theorem C4_counterexample_watch_dry_continues :
    (watch_loop 0 true false (okStream demoSnaps) noAnswer noFails2 2).events =
      [.watchBanner 0, .watchFound [1], .watchDryNotice,
        .watchFound [1], .watchDryNotice] ∧
    (watch_loop 0 true false (okStream demoSnaps) noAnswer noFails2 2).halted = false := by
  decide

/-- C4 (amended): with dry-run set, the one-shot pass stops right
after reporting the plan (its trace is exactly the plan report
followed by the dry-run notice); in watch mode a dry run never
issues a deletion call, but it does not stop after the first
snapshot: the loop never exits on its own while every snapshot
yields violations. -/
theorem C4_dry_run_stop_is_one_shot_only :
    (∀ (ay : Bool) (out conf : List Char) (fails : Nat → Bool),
       parse_ufw_status out ≠ [] →
       (single_cleanup true ay (.ok out) conf fails).1 =
         [.planReport (sortAsc (parse_ufw_status out)), .dryRunNotice]) ∧
    (∀ (ay : Bool) (snaps : Nat → List Char) (confs : Nat → List Char)
       (fails : Nat → Nat → Bool) (interval fuel : Nat),
       deleteCalls (watch_loop interval true ay (okStream snaps) confs fails fuel).events
           = [] ∧
       ((∀ j, parse_ufw_status (snaps j) ≠ []) →
         (watch_loop interval true ay (okStream snaps) confs fails fuel).halted = false)) := by
  constructor
  · intro ay out conf fails h
    unfold single_cleanup parse_ufw_statusE cleanup_pass
    dsimp only
    rw [if_neg (by simp [List.isEmpty_iff, h])]
    simp
  · intro ay snaps confs fails interval fuel
    constructor
    · unfold watch_loop
      dsimp only
      rw [deleteCalls_cons]
      rw [deleteCalls_watch_run_dry ay (okStream snaps) confs fails interval fuel 0]
      rfl
    · intro hall
      unfold watch_loop
      dsimp only
      exact (watch_run_ok_not_halted true ay snaps confs fails interval fuel 0
        (fun j _ => by simpa using hall j)).1

/-- C5: the watch loop exits on its own exactly at the first
snapshot with zero violations — with the first `k` snapshots
violating and snapshot `k` clean it has exited after `k + 1`
iterations but not within the first `k`; and when every snapshot
yields a violation, no amount of fuel makes it exit. -/
theorem C5_watch_self_termination (dry ay : Bool) (snaps : Nat → List Char)
    (confs : Nat → List Char) (fails : Nat → Nat → Bool) (interval k : Nat) :
    ((∀ j, j < k → parse_ufw_status (snaps j) ≠ []) →
       parse_ufw_status (snaps k) = [] →
       (watch_loop interval dry ay (okStream snaps) confs fails (k + 1)).halted = true ∧
       (watch_loop interval dry ay (okStream snaps) confs fails k).halted = false) ∧
    ((∀ j, parse_ufw_status (snaps j) ≠ []) →
       ∀ fuel,
         (watch_loop interval dry ay (okStream snaps) confs fails fuel).halted = false) := by
  have hl : ∀ fuel,
      (watch_loop interval dry ay (okStream snaps) confs fails fuel).halted =
        (watch_run dry ay (okStream snaps) confs fails interval fuel 0).halted :=
    fun _ => rfl
  constructor
  · intro hpre he
    refine ⟨?_, ?_⟩
    · rw [hl]
      exact watch_run_ok_halts dry ay snaps confs fails interval k 0
        (fun j hj => by simpa using hpre j hj) (by simpa using he)
    · rw [hl]
      exact (watch_run_ok_not_halted dry ay snaps confs fails interval k 0
        (fun j hj => by simpa using hpre j hj)).1
  · intro hall fuel
    rw [hl]
    exact (watch_run_ok_not_halted dry ay snaps confs fails interval fuel 0
      (fun j _ => by simpa using hall j)).1

/-- C6 counterexample: grammar-conforming lines with action `DENY`
or direction `OUT` do NOT parse into rule records — `RULE_RE`
hard-codes `ALLOW IN`, so both lines below fail to match. -/
theorem C6_counterexample_deny_out_not_parsed :
    ruleMatch (pyStrip ("[ 1] 80/tcp DENY IN Anywhere".toList)) = none ∧
    ruleMatch (pyStrip ("[ 2] 443/tcp ALLOW OUT Anywhere".toList)) = none := by
  decide

/-- C6 (amended): only lines containing the literal `ALLOW IN`
between destination and source can parse into a rule record; a
conforming `ALLOW IN` line yields its index, destination and source
captures, and every other line — headers, blanks, `DENY` and `OUT`
rules alike — is silently skipped rather than raising an error. -/
theorem C6_amended_only_allow_in_parses :
    (∀ (cs : List Char) (r : Nat × List Char × List Char),
       ruleMatch cs = some r → allowIn <:+: cs) ∧
    ruleMatch ("[ 1] 80/tcp ALLOW IN Anywhere".toList) =
      some (1, "80/tcp".toList, "Anywhere".toList) ∧
    parse_ufw_status
      (("Status: active\n\n     To      Action      From\n     --      ------      ----\n" ++
        "[ 1] 80/tcp DENY IN Anywhere\n[ 2] 443 ALLOW OUT Anywhere\n" ++
        "[ 3] 8080/tcp ALLOW IN Anywhere").toList) = [3] := by
  refine ⟨fun cs r h => ruleMatch_allowIn h, by decide, by decide⟩

/-- C6 witness: the necessity half of the amended claim applied to a
concrete successfully-parsed line. -/
theorem C6_amended_only_allow_in_parses_witness :
    allowIn <:+: ("[ 1] 80/tcp ALLOW IN Anywhere".toList) :=
  C6_amended_only_allow_in_parses.1 ("[ 1] 80/tcp ALLOW IN Anywhere".toList)
    (1, "80/tcp".toList, "Anywhere".toList) (by decide)

/-- C7: the administrative-port test matches `22` and `22/tcp` as
whole words (also an isolated `22` token inside a combined
destination), rejects `220`, `5522` and `220/tcp`, and consequently
a rule with destination `220/tcp` from Anywhere is scheduled for
deletion while a `22/tcp` rule is exempted. -/
theorem C7_ssh_whole_word :
    sshSearch ("22".toList) = true ∧
    sshSearch ("22/tcp".toList) = true ∧
    sshSearch ("22,8080/tcp".toList) = true ∧
    sshSearch ("220".toList) = false ∧
    sshSearch ("5522".toList) = false ∧
    sshSearch ("220/tcp".toList) = false ∧
    parse_ufw_status ("[ 1] 220/tcp ALLOW IN Anywhere".toList) = [1] ∧
    parse_ufw_status ("[ 1] 22/tcp ALLOW IN Anywhere".toList) = [] := by
  decide

/-- C8: deletions are attempted independently.  Whatever the failure
oracle says, every planned index is announced and called, in the
same descending order (so one failure never aborts the batch), and
every failing index is logged with a failure event. -/
theorem C8_deletions_independent (fails : Nat → Bool) (l : List Nat) :
    deleteAttempts (delete_rules fails l) = sortDesc l ∧
    deleteCalls (delete_rules fails l) = sortDesc l ∧
    (∀ idx, idx ∈ l → fails idx = true →
       Event.deleteFailed idx ∈ delete_rules fails l) :=
  ⟨deleteAttempts_delete_rules fails l, deleteCalls_delete_rules fails l,
    fun idx hm hf => deleteFailed_mem_delete_rules fails l idx hm hf⟩

/-- C9: a failed listing query — non-zero exit of the external tool,
or the tool not being found — aborts the run at once with a non-zero
outcome: the one-shot pass emits no events at all, and the watch
loop emits only its banner; in particular no deletion is ever
attempted. -/
theorem C9_fatal_query_aborts (dry ay : Bool) (q : UfwQuery) (conf : List Char)
    (fails : Nat → Bool) (qs : Nat → UfwQuery) (confs : Nat → List Char)
    (fails2 : Nat → Nat → Bool) (interval fuel : Nat) (e : Fatal) :
    (parse_ufw_statusE q = .error e →
       single_cleanup dry ay q conf fails = ([], some e) ∧
       e.exitCode ≠ 0 ∧ e.message ≠ []) ∧
    (parse_ufw_statusE (qs 0) = .error e → 0 < fuel →
       (watch_loop interval dry ay qs confs fails2 fuel).events =
         [.watchBanner interval] ∧
       (watch_loop interval dry ay qs confs fails2 fuel).fatal = some e ∧
       e.exitCode ≠ 0 ∧ e.message ≠ []) := by
  have hex : e.exitCode ≠ 0 := by cases e <;> simp [Fatal.exitCode]
  have hmsg : e.message ≠ [] := by
    cases e <;> simp only [Fatal.message] <;> decide
  constructor
  · intro h
    refine ⟨?_, hex, hmsg⟩
    unfold single_cleanup
    rw [h]
  · intro h hf
    cases fuel with
    | zero => exact absurd hf (Nat.lt_irrefl 0)
    | succ n =>
      have hiter : watch_iter dry ay qs confs fails2 interval 0 = ⟨[], false, some e⟩ := by
        unfold watch_iter
        rw [h]
      refine ⟨?_, ?_, hex, hmsg⟩
      · unfold watch_loop
        dsimp only
        simp only [watch_run, hiter]
        rfl
      · unfold watch_loop
        dsimp only
        simp only [watch_run, hiter]
        rfl

/-- C10: in both modes, when confirmation is required (dry-run off,
assume-yes off), deletion calls happen exactly when the answer,
lowercased and stripped, is the single letter `y`; `"yes"` and the
empty answer decline while `"  Y "` proceeds. -/
theorem C10_confirmation_exact_y (out conf : List Char) (fails : Nat → Bool)
    (snaps : Nat → List Char) (confs : Nat → List Char)
    (fails2 : Nat → Nat → Bool) (interval k : Nat) :
    deleteCalls (single_cleanup false false (.ok out) conf fails).1 =
      (if normResp conf = "y".toList then sortDesc (parse_ufw_status out) else []) ∧
    deleteCalls (watch_iter false false (okStream snaps) confs fails2 interval k).events =
      (if normResp (confs k) = "y".toList
       then sortDesc (parse_ufw_status (snaps k)) else []) ∧
    normResp ("yes".toList) ≠ "y".toList ∧
    normResp ("".toList) ≠ "y".toList ∧
    normResp ("  Y ".toList) = "y".toList := by
  refine ⟨?_, ?_, by decide, by decide, by decide⟩
  · unfold single_cleanup parse_ufw_statusE cleanup_pass
    dsimp only
    by_cases h : (parse_ufw_status out).isEmpty = true
    · rw [if_pos h]
      rw [List.isEmpty_iff.mp h]
      simp [deleteCalls_cons, deleteCalls_nil, sortDesc]
    · rw [if_neg h]
      by_cases hy : normResp conf = "y".toList
      · rw [if_pos hy, if_pos hy]
        simp [deleteCalls_cons, deleteCalls_append, deleteCalls_delete_rules,
          deleteCalls_nil]
      · rw [if_neg hy, if_neg hy]
        simp [deleteCalls_cons, deleteCalls_nil]
  · unfold watch_iter okStream parse_ufw_statusE
    dsimp only
    by_cases h : (parse_ufw_status (snaps k)).isEmpty = true
    · rw [if_pos h]
      rw [List.isEmpty_iff.mp h]
      simp [deleteCalls_cons, deleteCalls_nil, sortDesc]
    · rw [if_neg h]
      by_cases hy : normResp (confs k) = "y".toList
      · rw [if_pos hy, if_pos hy]
        simp [deleteCalls_cons, deleteCalls_append, deleteCalls_delete_rules,
          deleteCalls_sleep_if, deleteCalls_nil]
      · rw [if_neg hy, if_neg hy]
        simp [deleteCalls_cons, deleteCalls_sleep_if, deleteCalls_nil]

end CleanUfw

namespace CleanUfw

/-- Spec worked example 1: with `[1] 22/tcp ALLOW IN Anywhere` and
`[2] 8080/tcp ALLOW IN Anywhere` listed, the violation set is `{2}`
and rule 1 (the SSH rule) is preserved. -/
theorem spec_example_one :
    parse_ufw_status
      ("[ 1] 22/tcp ALLOW IN Anywhere\n[ 2] 8080/tcp ALLOW IN Anywhere".toList) =
      [2] := by
  decide

/-- Spec worked example 2: with `[1] 80/tcp ALLOW IN Anywhere` and
`[2] 443/tcp ALLOW IN Anywhere (v6)` listed, the violation set is
`{1, 2}` and the deletion order is `[2, 1]`. -/
theorem spec_example_two :
    parse_ufw_status
      ("[ 1] 80/tcp ALLOW IN Anywhere\n[ 2] 443/tcp ALLOW IN Anywhere (v6)".toList) =
      [1, 2] ∧
    deleteCalls (delete_rules (fun _ => false)
      (parse_ufw_status
        ("[ 1] 80/tcp ALLOW IN Anywhere\n[ 2] 443/tcp ALLOW IN Anywhere (v6)".toList))) =
      [2, 1] := by
  constructor <;> decide

end CleanUfw
